import Mathlib

/-!
  Verification of the metro bundler core against its natural-language
  specification.  The development shallowly embeds the relevant source
  files:

  * `packages/metro-source-map/src/BundleBuilder.js` — the bundle /
    source-map builder (`Metro.BundleBuilder`, `Metro.measureString`);
  * `react-packager/src/DependencyResolver/FileWatcher/index.js` — the
    file watcher construction, ready timeout and singleton guard;
  * the Delta Calculator (`DeltaBundler/DeltaCalculator.js`), whose
    implementation file is not part of the covered sources; it is
    modelled from the specification's state machine (§4.5, §7) and
    checked against the behaviours its test suite pins down.

  Strings are embedded as `List Char`; sets that the JavaScript code
  keeps as insertion-ordered `Set` objects are embedded as duplicate-free
  lists with order-preserving insertion.
-/

namespace Metro

/-! ### BundleBuilder (packages/metro-source-map/src/BundleBuilder.js)

The JavaScript `measureString` scans a string with the global regex
`/\r\n|\r\n|\n/g`, counting the matches (`lineBreaks`) and recording the
index right after the last match (`lastLineStart`); it returns
`lastLineColumns = str.length - lastLineStart`.  The regex alternation is
greedy from the left, so a `"\r\n"` pair counts as a single break.  We
embed it as a single left-to-right pass returning the pair
`(lineBreaks, lastLineColumns)`. -/

def measureString : List Char → Nat × Nat
  | '\r' :: '\n' :: t => ((measureString t).1 + 1, (measureString t).2)
  | '\r' :: t => ((measureString t).1 + 1, (measureString t).2)
  | '\n' :: t => ((measureString t).1 + 1, (measureString t).2)
  | _ :: t =>
    ((measureString t).1,
      if (measureString t).1 = 0 then (measureString t).2 + 1
      else (measureString t).2)
  | [] => (0, 0)

/-- Embedding of an `IndexMapSection`: the (opaque) per-module map plus
the `offset: {line, column}` recorded by `BundleBuilder.append`. -/
structure IndexMapSection (M : Type) where
  map : M
  line : Nat
  column : Nat
deriving DecidableEq, Repr

/-- Embedding of the `IndexMap` returned by `createIndexMap`. -/
structure IndexMap (M : Type) where
  version : Nat
  file : String
  sections : List (IndexMapSection M)
deriving DecidableEq, Repr

/-- State of a `BundleBuilder`: `_file`, `_sections`, `_line`, `_column`,
`_code`. -/
structure BundleBuilder (M : Type) where
  file : String
  sections : List (IndexMapSection M)
  line : Nat
  column : Nat
  code : List Char
deriving DecidableEq, Repr

/-- The `BundleBuilder` constructor. -/
def BundleBuilder.new (M : Type) (file : String) : BundleBuilder M :=
  { file := file, sections := [], line := 0, column := 0, code := [] }

/-- `BundleBuilder.append(code, map)`: measure the appended string, push a
section at the current `(line, column)` when a map is supplied, then
advance the offset tracker and extend the accumulated code. -/
def BundleBuilder.append (b : BundleBuilder M) (code : List Char)
    (map : Option M) : BundleBuilder M :=
  let m := measureString code
  { b with
    sections :=
      match map with
      | some mp => b.sections ++ [⟨mp, b.line, b.column⟩]
      | none => b.sections
    line := b.line + m.1
    column := if m.1 > 0 then m.2 else b.column + m.2
    code := b.code ++ code }

/-- `BundleBuilder.getCode()`. -/
def BundleBuilder.getCode (b : BundleBuilder M) : List Char :=
  b.code

/-- `BundleBuilder.getMap()`, via `createIndexMap(file, sections)`. -/
def BundleBuilder.getMap (b : BundleBuilder M) : IndexMap M :=
  { version := 3, file := b.file, sections := b.sections }

/-- Run a whole sequence of `append(code, map)` calls on a fresh builder. -/
def buildAll (M : Type) (file : String)
    (apps : List (List Char × Option M)) : BundleBuilder M :=
  apps.foldl (fun b a => b.append a.1 a.2) (BundleBuilder.new M file)

/-! Specification-side counterparts, written after the claim's wording:
a line break is `\r\n`, `\r` or `\n` (tokenized greedily from the left,
so `\r\n` is a single break); `countLineBreaks` is "the count of line
breaks in the text", and `charsAfterLastBreak` is "the number of
characters after the last line break (the total length when there is
none)". -/

def countLineBreaks : List Char → Nat
  | '\r' :: '\n' :: t => countLineBreaks t + 1
  | '\r' :: t => countLineBreaks t + 1
  | '\n' :: t => countLineBreaks t + 1
  | _ :: t => countLineBreaks t
  | [] => 0

def charsAfterLastBreak : List Char → Nat
  | '\r' :: '\n' :: t =>
    if countLineBreaks t = 0 then t.length else charsAfterLastBreak t
  | '\r' :: t =>
    if countLineBreaks t = 0 then t.length else charsAfterLastBreak t
  | '\n' :: t =>
    if countLineBreaks t = 0 then t.length else charsAfterLastBreak t
  | _ :: t =>
    if countLineBreaks t = 0 then t.length + 1 else charsAfterLastBreak t
  | [] => 0

/-- The sections that the claim says a sequence of `append` calls should
produce, accumulating the concatenated preceding text in `pre`: each
map-supplying call contributes one section whose offset is the line/column
recount of the whole preceding text. -/
def specSections (M : Type) :
    List Char → List (List Char × Option M) → List (IndexMapSection M)
  | _, [] => []
  | pre, (c, none) :: rest => specSections M (pre ++ c) rest
  | pre, (c, some mp) :: rest =>
    ⟨mp, countLineBreaks pre, charsAfterLastBreak pre⟩ ::
      specSections M (pre ++ c) rest

/-- Claim C1 as stated: for every sequence of appends, the code is the
concatenation and the sections carry the global line/column recount of the
preceding text. -/
def C1Statement : Prop :=
  ∀ (M : Type) (file : String) (apps : List (List Char × Option M)),
    (buildAll M file apps).getCode = (apps.map Prod.fst).flatten ∧
    (buildAll M file apps).getMap.sections = specSections M [] apps

/-- `noSplitCRLF pre apps = true` when no append boundary splits a `\r\n`
pair: at each step, the accumulated code does not end in `\r` while the
next appended string starts with `\n`. -/
def noSplitCRLF (M : Type) : List Char → List (List Char × Option M) → Bool
  | _, [] => true
  | pre, (c, _) :: rest =>
    (!((pre.getLast? == some '\r') && (c.head? == some '\n'))) &&
      noSplitCRLF M (pre ++ c) rest

/-! Unfolding lemmas for `measureString` (patterns overlap, so the
equations carry disambiguating side conditions). -/

lemma mS_nil : measureString [] = (0, 0) := rfl

lemma mS_crlf (t : List Char) :
    measureString ('\r' :: '\n' :: t) =
      ((measureString t).1 + 1, (measureString t).2) := by
  rw [measureString]

lemma mS_cr (t : List Char) (h : t.head? ≠ some '\n') :
    measureString ('\r' :: t) =
      ((measureString t).1 + 1, (measureString t).2) := by
  rw [measureString.eq_2]
  intro t1 ht1
  apply h
  rw [ht1]
  rfl

lemma mS_lf (t : List Char) :
    measureString ('\n' :: t) =
      ((measureString t).1 + 1, (measureString t).2) := by
  rw [measureString]

lemma mS_other (c : Char) (t : List Char) (h1 : c ≠ '\r') (h2 : c ≠ '\n') :
    measureString (c :: t) =
      ((measureString t).1,
        if (measureString t).1 = 0 then (measureString t).2 + 1
        else (measureString t).2) := by
  rw [measureString.eq_4]
  · intro t1 hc _
    exact h1 hc
  · exact h1
  · exact h2

/-- A text with no line break measures its whole length as the last
line. -/
lemma charsAfterLastBreak_of_no_breaks (t : List Char)
    (h : countLineBreaks t = 0) : charsAfterLastBreak t = t.length := by
  induction t using countLineBreaks.induct with
  | case1 t ih => rw [countLineBreaks] at h; omega
  | case2 t ht ih => rw [countLineBreaks.eq_2 t ht] at h; omega
  | case3 t ih => rw [countLineBreaks] at h; omega
  | case4 c t h0 h1 h2 ih =>
    rw [countLineBreaks.eq_4 c t h0 h1 h2] at h
    rw [charsAfterLastBreak.eq_4 c t h0 h1 h2, if_pos h, List.length_cons]
  | case5 => rfl

/-- The code's one-pass measurement computes exactly the claim's pair:
line-break count and characters after the last break. -/
lemma measureString_eq_spec (s : List Char) :
    measureString s = (countLineBreaks s, charsAfterLastBreak s) := by
  induction s using measureString.induct with
  | case1 t ih =>
    rw [measureString, ih, countLineBreaks, charsAfterLastBreak]
    by_cases h : countLineBreaks t = 0
    · rw [if_pos h, charsAfterLastBreak_of_no_breaks t h]
    · rw [if_neg h]
  | case2 t ht ih =>
    rw [measureString.eq_2 t ht, ih, countLineBreaks.eq_2 t ht,
      charsAfterLastBreak.eq_2 t ht]
    by_cases h : countLineBreaks t = 0
    · rw [if_pos h, charsAfterLastBreak_of_no_breaks t h]
    · rw [if_neg h]
  | case3 t ih =>
    rw [measureString, ih, countLineBreaks, charsAfterLastBreak]
    by_cases h : countLineBreaks t = 0
    · rw [if_pos h, charsAfterLastBreak_of_no_breaks t h]
    · rw [if_neg h]
  | case4 c t h0 h1 h2 ih =>
    rw [measureString.eq_4 c t h0 h1 h2, ih, countLineBreaks.eq_4 c t h0 h1 h2,
      charsAfterLastBreak.eq_4 c t h0 h1 h2]
    dsimp only
    by_cases h : countLineBreaks t = 0
    · rw [if_pos h, if_pos h, charsAfterLastBreak_of_no_breaks t h]
    · rw [if_neg h, if_neg h]
  | case5 => rfl

/-- Measuring a concatenation composes, provided the junction does not
split a `\r\n` pair: the break counts add, and the last-line column is
the right-hand one when the right side has a break, the sum otherwise. -/
lemma measureString_append (a b : List Char)
    (h : a.getLast? = some '\r' → b.head? ≠ some '\n') :
    measureString (a ++ b) =
      ((measureString a).1 + (measureString b).1,
        if (measureString b).1 = 0 then
          (measureString a).2 + (measureString b).2
        else (measureString b).2) := by
  induction a using measureString.induct with
  | case1 t ih =>
    have ht : t.getLast? = some '\r' → b.head? ≠ some '\n' := by
      intro hlast
      apply h
      match t, hlast with
      | c :: t', hlast =>
        rw [List.getLast?_cons_cons, List.getLast?_cons_cons]
        exact hlast
    rw [List.cons_append, List.cons_append, measureString.eq_1, ih ht,
      measureString.eq_1]
    dsimp only
    rw [Prod.mk.injEq]
    exact ⟨by omega, rfl⟩
  | case2 t ht0 ih =>
    have ht : t.getLast? = some '\r' → b.head? ≠ some '\n' := by
      intro hlast
      apply h
      match t, hlast with
      | c :: t', hlast =>
        rw [List.getLast?_cons_cons]
        exact hlast
    have ht0' : t.head? ≠ some '\n' := by
      cases t with
      | nil => simp
      | cons c' t' =>
        intro hc
        have hc' : c' = '\n' := by injection hc
        exact ht0 t' (by rw [hc'])
    have hhead : (t ++ b).head? ≠ some '\n' := by
      cases t with
      | nil => exact h rfl
      | cons c' t' =>
        intro hc
        have hc' : c' = '\n' := by injection hc
        exact ht0 t' (by rw [hc'])
    rw [List.cons_append, mS_cr (t ++ b) hhead, ih ht, mS_cr t ht0']
    dsimp only
    rw [Prod.mk.injEq]
    exact ⟨by omega, rfl⟩
  | case3 t ih =>
    have ht : t.getLast? = some '\r' → b.head? ≠ some '\n' := by
      intro hlast
      apply h
      match t, hlast with
      | c :: t', hlast =>
        rw [List.getLast?_cons_cons]
        exact hlast
    rw [List.cons_append, mS_lf (t ++ b), ih ht, mS_lf t]
    dsimp only
    rw [Prod.mk.injEq]
    exact ⟨by omega, rfl⟩
  | case4 c t h0 h1 h2 ih =>
    have ht : t.getLast? = some '\r' → b.head? ≠ some '\n' := by
      intro hlast
      apply h
      match t, hlast with
      | c' :: t', hlast =>
        rw [List.getLast?_cons_cons]
        exact hlast
    rw [List.cons_append, mS_other c (t ++ b) (fun hc => h1 hc)
      (fun hc => h2 hc), ih ht, mS_other c t (fun hc => h1 hc)
      (fun hc => h2 hc)]
    dsimp only
    rw [Prod.mk.injEq]
    refine ⟨rfl, ?_⟩
    split_ifs <;> omega
  | case5 =>
    rw [List.nil_append, mS_nil]
    dsimp only
    rw [Prod.mk.injEq]
    refine ⟨by omega, ?_⟩
    split_ifs <;> omega

/-- Line-break counts add across a junction that does not split `\r\n`. -/
lemma countLineBreaks_append (a b : List Char)
    (h : a.getLast? = some '\r' → b.head? ≠ some '\n') :
    countLineBreaks (a ++ b) = countLineBreaks a + countLineBreaks b := by
  have := measureString_append a b h
  rw [measureString_eq_spec, measureString_eq_spec a, measureString_eq_spec b]
    at this
  exact congrArg Prod.fst this

/-- The last-line column of a junction that does not split `\r\n`: the
right side's column if it has a break, otherwise the sum. -/
lemma charsAfterLastBreak_append (a b : List Char)
    (h : a.getLast? = some '\r' → b.head? ≠ some '\n') :
    charsAfterLastBreak (a ++ b) =
      if countLineBreaks b = 0 then
        charsAfterLastBreak a + charsAfterLastBreak b
      else charsAfterLastBreak b := by
  have := measureString_append a b h
  rw [measureString_eq_spec, measureString_eq_spec a, measureString_eq_spec b]
    at this
  exact congrArg Prod.snd this

/-- Invariant of the builder's fold: if the tracked `(line, column)` is
the recount of the accumulated code and no remaining boundary splits a
`\r\n` pair, then running the remaining appends concatenates the code,
emits exactly the spec's sections, and preserves the recount. -/
lemma buildSteps (M : Type) (apps : List (List Char × Option M)) :
    ∀ b : BundleBuilder M,
      noSplitCRLF M b.code apps = true →
      b.line = countLineBreaks b.code →
      b.column = charsAfterLastBreak b.code →
      (apps.foldl (fun x a => x.append a.1 a.2) b).code
          = b.code ++ (apps.map Prod.fst).flatten ∧
      (apps.foldl (fun x a => x.append a.1 a.2) b).sections
          = b.sections ++ specSections M b.code apps ∧
      (apps.foldl (fun x a => x.append a.1 a.2) b).line
          = countLineBreaks (b.code ++ (apps.map Prod.fst).flatten) ∧
      (apps.foldl (fun x a => x.append a.1 a.2) b).column
          = charsAfterLastBreak (b.code ++ (apps.map Prod.fst).flatten) := by
  induction apps with
  | nil =>
    intro b _ hline hcol
    refine ⟨by simp, by simp [specSections], by simpa using hline,
      by simpa using hcol⟩
  | cons hd rest ih =>
    intro b hns hline hcol
    obtain ⟨c, m⟩ := hd
    have hns1 : (!((b.code.getLast? == some '\r') &&
        (c.head? == some '\n'))) = true ∧
        noSplitCRLF M (b.code ++ c) rest = true := by
      simpa [noSplitCRLF, Bool.and_eq_true] using hns
    have hjunction : b.code.getLast? = some '\r' → c.head? ≠ some '\n' := by
      intro h1 h2
      have := hns1.1
      rw [h1, h2] at this
      simp at this
    have hline' : (b.append c m).line = countLineBreaks (b.code ++ c) := by
      rw [countLineBreaks_append b.code c hjunction]
      show b.line + (measureString c).1 = _
      rw [hline, measureString_eq_spec]
    have hcol' : (b.append c m).column = charsAfterLastBreak (b.code ++ c) := by
      rw [charsAfterLastBreak_append b.code c hjunction]
      show (if (measureString c).1 > 0 then (measureString c).2
        else b.column + (measureString c).2) = _
      rw [hcol, measureString_eq_spec]
      dsimp only
      split_ifs <;> omega
    have hcode' : (b.append c m).code = b.code ++ c := rfl
    have step := ih (b.append c m) (by rw [hcode']; exact hns1.2)
      (by rw [hcode']; exact hline') (by rw [hcode']; exact hcol')
    rw [hcode'] at step
    obtain ⟨s1, s2, s3, s4⟩ := step
    refine ⟨?_, ?_, ?_, ?_⟩
    · show (rest.foldl (fun x a => x.append a.1 a.2) (b.append c m)).code = _
      rw [s1, List.map_cons, List.flatten_cons, List.append_assoc]
    · show (rest.foldl (fun x a => x.append a.1 a.2) (b.append c m)).sections
        = _
      rw [s2]
      cases m with
      | none =>
        show b.sections ++ specSections M (b.code ++ c) rest = _
        rw [specSections]
      | some mp =>
        show (b.sections ++ [⟨mp, b.line, b.column⟩]) ++
          specSections M (b.code ++ c) rest = _
        rw [specSections, hline, hcol, List.append_assoc]
        rfl
    · show (rest.foldl (fun x a => x.append a.1 a.2) (b.append c m)).line = _
      rw [s3, List.map_cons, List.flatten_cons, List.append_assoc]
    · show (rest.foldl (fun x a => x.append a.1 a.2) (b.append c m)).column = _
      rw [s4, List.map_cons, List.flatten_cons, List.append_assoc]

/-- Claim C1, counterexample.  The claim as stated fails when an append
boundary splits a `\r\n` pair: appending `"\r"`, then `"\n"`, then `"x"`
with a map makes the builder record the offset `(line 2, column 0)`
(it counts one break per segment), while the claim's recount of the
preceding text `"\r\n"` gives `(line 1, column 0)`. -/
theorem C1_counterexample : ¬ C1Statement := by
  intro h
  exact absurd
    (h Nat "bundle.js" [(['\r'], none), (['\n'], none), (['x'], some 0)]).2
    (by decide)

/-- Claim C1, amended: for every sequence of `append(code, map)` calls on
a fresh `BundleBuilder` in which no boundary between consecutive appended
strings splits a `\r\n` pair, `getCode()` is the concatenation of the
appended strings in order and `getMap().sections` holds one section per
map-supplying call, in order, whose offset is the zero-based
`(line, column)` recount of the concatenated preceding text (a line break
being `\r\n`, `\r` or `\n`, greedily tokenized). -/
theorem C1_amended (M : Type) (file : String)
    (apps : List (List Char × Option M))
    (h : noSplitCRLF M [] apps = true) :
    (buildAll M file apps).getCode = (apps.map Prod.fst).flatten ∧
    (buildAll M file apps).getMap.sections = specSections M [] apps := by
  have inv := buildSteps M apps (BundleBuilder.new M file) h rfl rfl
  exact ⟨inv.1, by
    have := inv.2.1
    simpa [BundleBuilder.getMap, BundleBuilder.new, buildAll] using this⟩

/-- Witness for the amended claim C1 at a concrete append sequence. -/
theorem C1_amended_witness :
    noSplitCRLF Nat []
        [("a\n".toList, some 7), ("bc".toList, none),
          ("\r\nde\rf".toList, some 9), ("g".toList, some 11)] = true ∧
    ((buildAll Nat "bundle.js"
        [("a\n".toList, some 7), ("bc".toList, none),
          ("\r\nde\rf".toList, some 9), ("g".toList, some 11)]).getCode =
      (([("a\n".toList, (some 7 : Option Nat)), ("bc".toList, none),
          ("\r\nde\rf".toList, some 9),
          ("g".toList, some 11)]).map Prod.fst).flatten ∧
    (buildAll Nat "bundle.js"
        [("a\n".toList, some 7), ("bc".toList, none),
          ("\r\nde\rf".toList, some 9), ("g".toList, some 11)]).getMap.sections
      = specSections Nat []
          [("a\n".toList, some 7), ("bc".toList, none),
            ("\r\nde\rf".toList, some 9), ("g".toList, some 11)]) :=
  ⟨by decide, C1_amended Nat "bundle.js"
    [("a\n".toList, some 7), ("bc".toList, none),
      ("\r\nde\rf".toList, some 9), ("g".toList, some 11)] (by decide)⟩

/-! ### Delta Calculator

Modelled from the spec: the implementation file
(`DeltaBundler/DeltaCalculator.js`) is not among the covered sources,
only its test suite is.  The model follows the specification's state
machine (§4.5): the dirty/deleted sets maintained from watcher events,
the snapshot-and-clear at `getDelta`, the initial traversal on a fresh
graph, the deleted-then-added coalescing, the dirtying of a deleted
file's inverse dependencies, the `reset=true` full-graph answer, and the
error recovery that restores the dirty sets.  The graph traversals
themselves (`initialTraverseDependencies` / `traverseDependencies`) are
separate collaborators (mocked in the test suite) and are taken as
parameters; a `none` result models a rejected traversal, which commits
nothing. -/

abbrev Path := String

/-- The per-module graph edge; only the inverse-dependency index and an
opaque output payload matter to the claims. -/
structure ModuleEdge where
  out : Nat
  inverseDependencies : List Path
deriving DecidableEq, Repr

/-- The dependency graph: an insertion-ordered map from path to edge. -/
structure Graph where
  dependencies : List (Path × ModuleEdge)
deriving DecidableEq, Repr

/-- Result of a (re-)traversal: the added-or-modified edges and the paths
that became unreachable. -/
structure TraverseResult where
  added : List (Path × ModuleEdge)
  deleted : List Path
deriving DecidableEq, Repr

/-- The injected traversal collaborators.  `none` models a rejected
traversal; a successful traversal returns the updated graph together
with its added/deleted report. -/
structure TraversalOps where
  initialTraverse : List Path → Graph → Option (Graph × List (Path × ModuleEdge))
  traverse : List Path → Graph → Option (Graph × TraverseResult)

/-- Insertion-ordered set insert (JavaScript `Set.add`). -/
def insertOnce (p : Path) (l : List Path) : List Path :=
  if p ∈ l then l else l ++ [p]

/-- Delta Calculator session state: entry points, current graph, pending
dirty/deleted sets, and the number of `'change'` listeners the session
keeps attached to the watcher. -/
structure DeltaCalculator where
  entryPoints : List Path
  graph : Graph
  modifiedFiles : List Path
  deletedFiles : List Path
  changeListeners : Nat
deriving DecidableEq, Repr

/-- A fresh session: empty graph, empty dirty sets, one `'change'`
listener attached to the watcher. -/
def DeltaCalculator.new (entryPoints : List Path) : DeltaCalculator :=
  { entryPoints := entryPoints, graph := ⟨[]⟩, modifiedFiles := [],
    deletedFiles := [], changeListeners := 1 }

/-- A watcher event: a change/add of a path, or a delete of a path. -/
inductive FileEvent where
  | change (p : Path)
  | delete (p : Path)

/-- The watcher `'change'` handler.  A delete records the path as deleted
and drops any pending change of it; a change records the path as dirty
and drops any pending delete of it (deleted-then-added coalescing).
After `end()` the listener is detached, so events are ignored. -/
def DeltaCalculator.handleFileChange (dc : DeltaCalculator)
    (ev : FileEvent) : DeltaCalculator :=
  if dc.changeListeners = 0 then dc
  else
    match ev with
    | .delete p =>
      { dc with
        deletedFiles := insertOnce p dc.deletedFiles
        modifiedFiles := dc.modifiedFiles.erase p }
    | .change p =>
      { dc with
        modifiedFiles := insertOnce p dc.modifiedFiles
        deletedFiles := dc.deletedFiles.erase p }

/-- A delta published to the client. -/
structure Delta where
  modified : List (Path × ModuleEdge)
  deleted : List Path
  reset : Bool
deriving DecidableEq, Repr

/-- A record of one traversal invocation, for counting and inspecting the
inputs handed to the traversal collaborators. -/
inductive TraverseCall where
  | initial (entryPoints : List Path)
  | traverse (dirty : List Path)
deriving DecidableEq, Repr

/-- The dirty list a build snapshot produces: every deleted file dirties
its inverse dependencies, and only files currently in the graph are
traversed. -/
def dirtyOf (g : Graph) (modified deleted : List Path) : List Path :=
  (deleted.foldl
    (fun acc p =>
      match g.dependencies.lookup p with
      | some e => e.inverseDependencies.foldl (fun a q => insertOnce q a) acc
      | none => acc)
    modified).filter (fun p => (g.dependencies.lookup p).isSome)

/-- The pending dirty list of a session, as the next build would see it. -/
def DeltaCalculator.dirtyPaths (dc : DeltaCalculator) : List Path :=
  dirtyOf dc.graph dc.modifiedFiles dc.deletedFiles

/-- One build over a snapshot of the dirty/deleted sets.  On a fresh
(empty) graph it runs the initial traversal and reports everything with
`reset = true`; otherwise it traverses the dirty list, or returns the
empty delta when there is nothing to do.  The first component records
the traversal invocations; `none` models a rejected build. -/
def DeltaCalculator.getChangedDependencies (ops : TraversalOps)
    (dc : DeltaCalculator) (modified deleted : List Path) :
    List TraverseCall × Option (DeltaCalculator × Delta) :=
  if dc.graph.dependencies.isEmpty then
    match ops.initialTraverse dc.entryPoints dc.graph with
    | some (g, added) =>
      ([.initial dc.entryPoints],
        some ({ dc with graph := g }, ⟨added, [], true⟩))
    | none => ([.initial dc.entryPoints], none)
  else
    let dirty := dirtyOf dc.graph modified deleted
    if dirty.isEmpty then
      ([], some (dc, ⟨[], [], false⟩))
    else
      match ops.traverse dirty dc.graph with
      | some (g, tr) =>
        ([.traverse dirty],
          some ({ dc with graph := g }, ⟨tr.added, tr.deleted, false⟩))
      | none => ([.traverse dirty], none)

/-- `getDelta({reset})`: snapshot and clear the dirty/deleted sets, run
the build, and either publish the delta (the whole current graph when a
reset was requested), or, when the build rejects, restore the snapshot
into the dirty sets so the next call retries, and surface the error. -/
def DeltaCalculator.getDelta (ops : TraversalOps) (dc0 : DeltaCalculator)
    (shouldReset : Bool) :
    DeltaCalculator × List TraverseCall × Except Unit Delta :=
  let modified := dc0.modifiedFiles
  let deleted := dc0.deletedFiles
  let dc := { dc0 with
    modifiedFiles := ([] : List Path)
    deletedFiles := ([] : List Path) }
  match dc.getChangedDependencies ops modified deleted with
  | (calls, none) =>
    ({ dc with modifiedFiles := modified, deletedFiles := deleted },
      calls, .error ())
  | (calls, some (dc1, delta)) =>
    if shouldReset then
      (dc1, calls, .ok ⟨dc1.graph.dependencies, [], true⟩)
    else
      (dc1, calls, .ok delta)

/-- `end()`: detach the watcher listener and release the dirty sets; the
graph itself is left intact. -/
def DeltaCalculator.endCalc (dc : DeltaCalculator) : DeltaCalculator :=
  { dc with
    changeListeners := 0
    modifiedFiles := ([] : List Path)
    deletedFiles := ([] : List Path) }

/-- `getGraph()`. -/
def DeltaCalculator.getGraph (dc : DeltaCalculator) : Graph :=
  dc.graph

/-- The `Clean` state of the spec's state machine: a built (non-empty)
graph with no pending dirty or deleted files. -/
def CleanState (dc : DeltaCalculator) : Prop :=
  dc.graph.dependencies ≠ [] ∧ dc.modifiedFiles = [] ∧ dc.deletedFiles = []

instance (dc : DeltaCalculator) : Decidable (CleanState dc) := by
  unfold CleanState
  infer_instance

/-! Concrete fixtures mirroring the test suite's mocked graph: entry
`/bundle` depending on `/foo`, `/bar`, `/baz`. -/

def edgeBundle : ModuleEdge := ⟨0, []⟩

def edgeFoo : ModuleEdge := ⟨1, ["/bundle"]⟩

def edgeBar : ModuleEdge := ⟨2, ["/bundle"]⟩

def edgeBaz : ModuleEdge := ⟨3, ["/bundle"]⟩

def testGraph : Graph :=
  ⟨[("/bundle", edgeBundle), ("/foo", edgeFoo), ("/bar", edgeBar),
    ("/baz", edgeBaz)]⟩

def opsInitial : TraversalOps :=
  ⟨fun _ _ => some (testGraph, testGraph.dependencies), fun _ _ => none⟩

def dcClean : DeltaCalculator :=
  ⟨["/bundle"], testGraph, [], [], 1⟩

/-- Claim C2: on a fresh session, the first `getDelta` (with either value
of the reset flag) runs the initial traversal and — when it succeeds,
producing the full reachable module set `added` as the graph's content —
returns `modified = added`, `deleted = ∅`, `reset = true`; in particular
`reset` is `true` even when the caller passed `reset:false`. -/
theorem C2_first_getDelta (ops : TraversalOps) (entryPoints : List Path)
    (shouldReset : Bool) (g : Graph) (added : List (Path × ModuleEdge))
    (hinit : ops.initialTraverse entryPoints (⟨[]⟩ : Graph) = some (g, added))
    (hfull : added = g.dependencies) :
    DeltaCalculator.getDelta ops (DeltaCalculator.new entryPoints)
        shouldReset =
      ({ DeltaCalculator.new entryPoints with graph := g },
        [TraverseCall.initial entryPoints],
        .ok ⟨added, [], true⟩) := by
  unfold DeltaCalculator.getDelta DeltaCalculator.getChangedDependencies
    DeltaCalculator.new
  simp only [hinit, List.isEmpty_nil, if_true]
  cases shouldReset with
  | false => simp
  | true => simp [hfull]

/-- Witness for C2 on the test suite's mocked initial traversal. -/
theorem C2_witness :
    DeltaCalculator.getDelta opsInitial (DeltaCalculator.new ["/bundle"])
        false =
      ({ DeltaCalculator.new ["/bundle"] with graph := testGraph },
        [TraverseCall.initial ["/bundle"]],
        .ok ⟨testGraph.dependencies, [], true⟩) :=
  C2_first_getDelta opsInitial ["/bundle"] false testGraph
    testGraph.dependencies rfl rfl

/-- From the `Clean` state, a `getDelta({reset:false})` does not touch
the traversal and returns the empty delta, leaving the session in the
same state. -/
lemma getDelta_clean (ops : TraversalOps) (dc : DeltaCalculator)
    (h : CleanState dc) :
    dc.getDelta ops false = (dc, [], .ok ⟨[], [], false⟩) := by
  obtain ⟨h1, h2, h3⟩ := h
  unfold DeltaCalculator.getDelta DeltaCalculator.getChangedDependencies
  rw [h2, h3]
  have heta : { dc with
      modifiedFiles := ([] : List Path)
      deletedFiles := ([] : List Path) } = dc := by
    cases dc
    simp_all
  rw [heta]
  have hgne : dc.graph.dependencies.isEmpty = false := by
    cases hg : dc.graph.dependencies with
    | nil => exact absurd hg h1
    | cons a l => simp [hg]
  simp [hgne, dirtyOf]

/-- Claim C3: in the `Clean` state, two consecutive
`getDelta({reset:false})` calls with no watcher events in between both
return `modified = ∅, deleted = ∅, reset = false`, and the second call
invokes no traversal. -/
theorem C3_two_empty_getDeltas (ops : TraversalOps) (dc : DeltaCalculator)
    (h : CleanState dc) :
    (dc.getDelta ops false).1.getDelta ops false
        = (dc, [], .ok ⟨[], [], false⟩) ∧
    ((dc.getDelta ops false).1.getDelta ops false).2.1 = [] := by
  rw [getDelta_clean ops dc h]
  rw [getDelta_clean ops dc h]
  exact ⟨rfl, rfl⟩

/-- Witness for C3 on the concrete clean session. -/
theorem C3_witness :
    (dcClean.getDelta opsInitial false).1.getDelta opsInitial false
        = (dcClean, [], .ok ⟨[], [], false⟩) :=
  (C3_two_empty_getDeltas opsInitial dcClean (by decide)).1

/-- Claim C4: after a completed build (the `Clean` state),
`getDelta({reset:true})` returns exactly the modules currently held in
the graph as `modified`, with `deleted = ∅` and `reset = true`. -/
theorem C4_reset_returns_full_graph (ops : TraversalOps)
    (dc : DeltaCalculator) (h : CleanState dc) :
    dc.getDelta ops true = (dc, [], .ok ⟨dc.graph.dependencies, [], true⟩)
    := by
  obtain ⟨h1, h2, h3⟩ := h
  unfold DeltaCalculator.getDelta DeltaCalculator.getChangedDependencies
  rw [h2, h3]
  have heta : { dc with
      modifiedFiles := ([] : List Path)
      deletedFiles := ([] : List Path) } = dc := by
    cases dc
    simp_all
  rw [heta]
  have hgne : dc.graph.dependencies.isEmpty = false := by
    cases hg : dc.graph.dependencies with
    | nil => exact absurd hg h1
    | cons a l => simp [hg]
  simp [hgne, dirtyOf]

/-- Witness for C4 on the concrete clean session. -/
theorem C4_witness :
    dcClean.getDelta opsInitial true
        = (dcClean, [], .ok ⟨dcClean.graph.dependencies, [], true⟩) :=
  C4_reset_returns_full_graph opsInitial dcClean (by decide)

/-- Folding ordered-set insertion of a duplicate-free list disjoint from
the accumulator appends the list. -/
lemma foldl_insertOnce (l : List Path) :
    ∀ acc : List Path, l.Nodup → (∀ q ∈ l, q ∉ acc) →
      l.foldl (fun a q => insertOnce q a) acc = acc ++ l := by
  induction l with
  | nil => intro acc _ _; simp
  | cons q l' ih =>
    intro acc hnd hdisj
    rw [List.foldl_cons]
    have hq : insertOnce q acc = acc ++ [q] := by
      unfold insertOnce
      rw [if_neg (hdisj q (by simp))]
    rw [hq, ih (acc ++ [q]) (List.nodup_cons.mp hnd).2]
    · simp
    · intro q' hq' hmem
      rcases List.mem_append.mp hmem with hmem1 | hmem2
      · exact hdisj q' (by simp [hq']) hmem1
      · have hqq : q' = q := by simpa using hmem2
        exact (List.nodup_cons.mp hnd).1 (hqq ▸ hq')

/-- Claim C5: a delete of `p` followed by a change of `p` before the next
build coalesces — the pending delete of `p` is dropped, the build runs
the traversal exactly once with dirty set exactly `[p]`, and the delta's
deleted set is only what the traversal itself reports (so no deletion of
`p` appears when the traversal does not delete it). -/
theorem C5_delete_then_change (ops : TraversalOps) (dc : DeltaCalculator)
    (p : Path) (g : Graph) (tr : TraverseResult)
    (hclean : CleanState dc) (hlisten : dc.changeListeners ≠ 0)
    (hp : (dc.graph.dependencies.lookup p).isSome = true)
    (htrav : ops.traverse [p] dc.graph = some (g, tr))
    (hnd : p ∉ tr.deleted) :
    ((dc.handleFileChange (.delete p)).handleFileChange
        (.change p)).modifiedFiles = [p] ∧
    ((dc.handleFileChange (.delete p)).handleFileChange
        (.change p)).deletedFiles = [] ∧
    ((dc.handleFileChange (.delete p)).handleFileChange
        (.change p)).getDelta ops false =
      ({ dc with graph := g }, [TraverseCall.traverse [p]],
        .ok ⟨tr.added, tr.deleted, false⟩) ∧
    p ∉ (⟨tr.added, tr.deleted, false⟩ : Delta).deleted := by
  obtain ⟨h1, h2, h3⟩ := hclean
  have hdc2 : (dc.handleFileChange (.delete p)).handleFileChange
      (.change p) = { dc with modifiedFiles := [p] } := by
    unfold DeltaCalculator.handleFileChange
    rw [if_neg hlisten]
    simp only
    rw [if_neg (by simpa using hlisten)]
    simp only [h2, h3]
    simp [insertOnce]
  refine ⟨by rw [hdc2], by rw [hdc2]; exact h3, ?_, hnd⟩
  rw [hdc2]
  unfold DeltaCalculator.getDelta DeltaCalculator.getChangedDependencies
  simp only
  have hgne : dc.graph.dependencies.isEmpty = false := by
    cases hg : dc.graph.dependencies with
    | nil => exact absurd hg h1
    | cons a l => simp [hg]
  have hdirty : dirtyOf dc.graph [p] [] = [p] := by
    unfold dirtyOf
    simp [hp]
  simp [hgne, hdirty, htrav, h2, h3]

/-- Witness for C5: delete `/foo` then change `/foo` on the test graph;
the single traversal gets dirty set `[/foo]`. -/
theorem C5_witness :
    ((dcClean.handleFileChange (.delete "/foo")).handleFileChange
        (.change "/foo")).getDelta
      (⟨fun _ _ => none,
        fun _ _ => some (testGraph, ⟨[("/foo", edgeFoo)], []⟩)⟩ :
          TraversalOps) false =
      ({ dcClean with graph := testGraph },
        [TraverseCall.traverse ["/foo"]],
        .ok ⟨[("/foo", edgeFoo)], [], false⟩) :=
  (C5_delete_then_change
    (⟨fun _ _ => none,
      fun _ _ => some (testGraph, ⟨[("/foo", edgeFoo)], []⟩)⟩ :
        TraversalOps)
    dcClean "/foo" testGraph ⟨[("/foo", edgeFoo)], []⟩
    (by decide) (by decide) (by decide) rfl (by decide)).2.2.1

/-- Claim C6: when the traversal started by `getDelta({reset:false})`
rejects, the call surfaces the error, the dirty set is restored rather
than cleared and the graph is untouched (the session state is exactly
what it was), so the next `getDelta({reset:false})` retries the very
same dirty set and rejects again while the traversal keeps failing. -/
theorem C6_failed_traverse_retries (ops : TraversalOps)
    (dc : DeltaCalculator)
    (hne : dc.graph.dependencies ≠ [])
    (hD : dc.dirtyPaths ≠ [])
    (hfail : ops.traverse dc.dirtyPaths dc.graph = none) :
    dc.getDelta ops false
        = (dc, [TraverseCall.traverse dc.dirtyPaths], .error ()) ∧
    (dc.getDelta ops false).1.getDelta ops false
        = (dc, [TraverseCall.traverse dc.dirtyPaths], .error ()) := by
  have hgne : dc.graph.dependencies.isEmpty = false := by
    cases hg : dc.graph.dependencies with
    | nil => exact absurd hg hne
    | cons a l => simp [hg]
  have hDe : dc.dirtyPaths.isEmpty = false := by
    cases hg : dc.dirtyPaths with
    | nil => exact absurd hg hD
    | cons a l => simp [hg]
  have hmain : dc.getDelta ops false
      = (dc, [TraverseCall.traverse dc.dirtyPaths], .error ()) := by
    unfold DeltaCalculator.getDelta DeltaCalculator.getChangedDependencies
    simp only [hgne, Bool.false_eq_true, if_false]
    have : dirtyOf dc.graph dc.modifiedFiles dc.deletedFiles
        = dc.dirtyPaths := rfl
    rw [this, hDe]
    simp only [Bool.false_eq_true, if_false, hfail]
  exact ⟨hmain, by rw [hmain]; exact hmain⟩

/-- Witness for C6: a failing traversal on a dirtied clean session. -/
theorem C6_witness :
    ({ dcClean with modifiedFiles := ["/foo"] } :
        DeltaCalculator).getDelta
      (⟨fun _ _ => none, fun _ _ => none⟩ : TraversalOps) false =
      ({ dcClean with modifiedFiles := ["/foo"] },
        [TraverseCall.traverse ["/foo"]], .error ()) :=
  (C6_failed_traverse_retries
    (⟨fun _ _ => none, fun _ _ => none⟩ : TraversalOps)
    { dcClean with modifiedFiles := ["/foo"] }
    (by decide) (by decide) rfl).1

/-- Claim C7: `end()` detaches the session's `'change'` listener from
the watcher (zero listeners remain attached afterwards) and leaves the
graph object with exactly the same entries, so late observers can still
inspect the last consistent snapshot. -/
theorem C7_end_detaches_and_preserves_graph (dc : DeltaCalculator) :
    dc.endCalc.changeListeners = 0 ∧
    dc.endCalc.graph.dependencies = dc.graph.dependencies :=
  ⟨rfl, rfl⟩

/-- Claim C9: a change of `p` followed by a delete of `p` before the next
build never hands `p` to the traversal: the build invokes the traversal
exactly once, with the inverse dependencies of `p` as its dirty input,
and `p` shows up in the resulting delta only in the deleted set. -/
theorem C9_change_then_delete (ops : TraversalOps) (dc : DeltaCalculator)
    (p : Path) (e : ModuleEdge) (g : Graph) (tr : TraverseResult)
    (hclean : CleanState dc) (hlisten : dc.changeListeners ≠ 0)
    (hp : dc.graph.dependencies.lookup p = some e)
    (hinvnd : e.inverseDependencies.Nodup)
    (hinvmem : ∀ q ∈ e.inverseDependencies,
      (dc.graph.dependencies.lookup q).isSome = true)
    (hinvne : e.inverseDependencies ≠ [])
    (hnotself : p ∉ e.inverseDependencies)
    (htrav : ops.traverse e.inverseDependencies dc.graph = some (g, tr))
    (hpadd : p ∉ tr.added.map Prod.fst) (hpdel : p ∈ tr.deleted) :
    ((dc.handleFileChange (.change p)).handleFileChange
        (.delete p)).modifiedFiles = [] ∧
    ((dc.handleFileChange (.change p)).handleFileChange
        (.delete p)).getDelta ops false =
      ({ dc with graph := g },
        [TraverseCall.traverse e.inverseDependencies],
        .ok ⟨tr.added, tr.deleted, false⟩) ∧
    p ∉ e.inverseDependencies ∧
    p ∉ (⟨tr.added, tr.deleted, false⟩ : Delta).modified.map Prod.fst ∧
    p ∈ (⟨tr.added, tr.deleted, false⟩ : Delta).deleted := by
  obtain ⟨h1, h2, h3⟩ := hclean
  have hdc2 : (dc.handleFileChange (.change p)).handleFileChange
      (.delete p) = { dc with deletedFiles := [p] } := by
    unfold DeltaCalculator.handleFileChange
    rw [if_neg hlisten]
    simp only
    rw [if_neg (by simpa using hlisten)]
    simp only [h2, h3]
    simp [insertOnce]
  have hgne : dc.graph.dependencies.isEmpty = false := by
    cases hg : dc.graph.dependencies with
    | nil => exact absurd hg h1
    | cons a l => simp [hg]
  have hdirty : dirtyOf dc.graph [] [p] = e.inverseDependencies := by
    unfold dirtyOf
    simp only [List.foldl_cons, List.foldl_nil, hp]
    rw [foldl_insertOnce e.inverseDependencies [] hinvnd (by simp)]
    rw [List.nil_append]
    exact List.filter_eq_self.mpr hinvmem
  have hDe : e.inverseDependencies.isEmpty = false := by
    cases hg : e.inverseDependencies with
    | nil => exact absurd hg hinvne
    | cons a l => simp [hg]
  refine ⟨by rw [hdc2]; exact h2, ?_, hnotself, hpadd, hpdel⟩
  rw [hdc2]
  unfold DeltaCalculator.getDelta DeltaCalculator.getChangedDependencies
  simp only
  simp [hgne, hdirty, hDe, htrav, h2, h3]

/-- Witness for C9: change `/foo` then delete `/foo` on the test graph;
the single traversal gets `/foo`'s inverse dependencies `[/bundle]`. -/
theorem C9_witness :
    ((dcClean.handleFileChange (.change "/foo")).handleFileChange
        (.delete "/foo")).getDelta
      (⟨fun _ _ => none,
        fun _ _ => some (testGraph, ⟨[("/bundle", edgeBundle)], ["/foo"]⟩)⟩ :
          TraversalOps) false =
      ({ dcClean with graph := testGraph },
        [TraverseCall.traverse ["/bundle"]],
        .ok ⟨[("/bundle", edgeBundle)], ["/foo"], false⟩) :=
  (C9_change_then_delete
    (⟨fun _ _ => none,
      fun _ _ => some (testGraph, ⟨[("/bundle", edgeBundle)], ["/foo"]⟩)⟩ :
        TraversalOps)
    dcClean "/foo" edgeFoo testGraph ⟨[("/bundle", edgeBundle)], ["/foo"]⟩
    (by decide) (by decide) (by decide) (by decide) (by decide) (by decide)
    (by decide) rfl (by decide) (by decide)).2.1

/-! ### FileWatcher (react-packager/src/DependencyResolver/FileWatcher/index.js)

`_createWatcher` races the watcher's `'ready'` event against a
`setTimeout(reject, MAX_WAIT_TIME)`; the embedding replaces real time by
the instant (`readyAt`) at which `'ready'` fires, if ever.  The
module-level `inited` flag makes the class a singleton: the constructor
throws while a previous instance is live, and `end()` clears the flag. -/

namespace FileWatcher

/-- `MAX_WAIT_TIME` from the source. -/
def MAX_WAIT_TIME : Nat := 120000

/-- A per-root sane watcher (only its root directory matters here). -/
structure Watcher where
  dir : String
deriving DecidableEq, Repr

/-- `timeoutMessage(Watcher)`: the rejection message, with the extra
troubleshooting lines for the watchman backend. -/
def timeoutMessage (watcherName : String) (isWatchman : Bool) : String :=
  String.intercalate "\n"
    (["Watcher took too long to load (" ++ watcherName ++ ")"] ++
      (if isWatchman then
        ["Try running `watchman version` from your terminal",
          "https://facebook.github.io/watchman/docs/troubleshooting.html"]
      else []))

/-- Outcome of `_createWatcher` for one root: the promise resolves with
the watcher when `'ready'` fires strictly before the `MAX_WAIT_TIME`
timeout, and rejects with the timeout error otherwise (`readyAt = none`
models a `'ready'` that never fires). -/
def createWatcher (w : Watcher) (watcherName : String) (isWatchman : Bool)
    (readyAt : Option Nat) : Except String Watcher :=
  match readyAt with
  | some t =>
    if t < MAX_WAIT_TIME then .ok w
    else .error (timeoutMessage watcherName isWatchman)
  | none => .error (timeoutMessage watcherName isWatchman)

/-- The module-level singleton state: the `inited` flag. -/
structure GlobalState where
  inited : Bool
deriving DecidableEq, Repr

/-- A constructed `FileWatcher` instance (only the option recorded by the
constructor matters here). -/
structure Instance where
  useWatchman : Bool
deriving DecidableEq, Repr

/-- The `FileWatcher` constructor guard: throw while `inited` is set
(leaving the module state untouched), otherwise set `inited` and build
the instance. -/
def construct (g : GlobalState) (useWatchman : Bool) :
    GlobalState × Except String Instance :=
  if g.inited then (g, .error "FileWatcher can only be instantiated once")
  else (⟨true⟩, .ok ⟨useWatchman⟩)

/-- `end()` clears the `inited` flag. -/
def endWatcher (_ : GlobalState) : GlobalState :=
  ⟨false⟩

end FileWatcher

/-- Claim C8: for every watched root, watcher creation resolves with the
watcher exactly when `'ready'` fires within the `MAX_WAIT_TIME = 120000`
millisecond bound, and rejects with the timeout error when `'ready'` has
not fired within the bound (or never fires). -/
theorem C8_ready_timeout (w : FileWatcher.Watcher) (watcherName : String)
    (isWatchman : Bool) (t : Nat) :
    (t < FileWatcher.MAX_WAIT_TIME →
      FileWatcher.createWatcher w watcherName isWatchman (some t) = .ok w) ∧
    (FileWatcher.MAX_WAIT_TIME ≤ t →
      FileWatcher.createWatcher w watcherName isWatchman (some t)
        = .error (FileWatcher.timeoutMessage watcherName isWatchman)) ∧
    FileWatcher.createWatcher w watcherName isWatchman none
      = .error (FileWatcher.timeoutMessage watcherName isWatchman) ∧
    FileWatcher.MAX_WAIT_TIME = 120000 := by
  refine ⟨?_, ?_, rfl, rfl⟩
  · intro h
    simp [FileWatcher.createWatcher, h]
  · intro h
    simp [FileWatcher.createWatcher, Nat.not_lt.mpr h]

/-- Witness for C8: a `'ready'` at 5 ms resolves; one at exactly
120000 ms (not within the bound) rejects with the timeout message. -/
theorem C8_witness :
    (5 < FileWatcher.MAX_WAIT_TIME ∧
      FileWatcher.createWatcher ⟨"/project"⟩ "NodeWatcher" false (some 5)
        = .ok ⟨"/project"⟩) ∧
    (FileWatcher.MAX_WAIT_TIME ≤ 120000 ∧
      FileWatcher.createWatcher ⟨"/project"⟩ "NodeWatcher" false
          (some 120000)
        = .error (FileWatcher.timeoutMessage "NodeWatcher" false)) :=
  ⟨⟨by decide,
    (C8_ready_timeout ⟨"/project"⟩ "NodeWatcher" false 5).1 (by decide)⟩,
    ⟨by decide,
      (C8_ready_timeout ⟨"/project"⟩ "NodeWatcher" false 120000).2.1
        (by decide)⟩⟩

/-- Claim C10: constructing a `FileWatcher` while another one created
since the last `end()` is live throws
`'FileWatcher can only be instantiated once'` and leaves the module
state untouched; after `end()` construction succeeds again, and a
successful construction re-arms the guard so the next one throws. -/
theorem C10_singleton (g : FileWatcher.GlobalState) (u1 u2 : Bool) :
    (g.inited = true →
      FileWatcher.construct g u1 =
        (g, .error "FileWatcher can only be instantiated once")) ∧
    (FileWatcher.construct (FileWatcher.endWatcher g) u1
        = (⟨true⟩, .ok ⟨u1⟩)) ∧
    (FileWatcher.construct
        (FileWatcher.construct (FileWatcher.endWatcher g) u1).1 u2).2
      = .error "FileWatcher can only be instantiated once" := by
  refine ⟨?_, rfl, rfl⟩
  intro h
  unfold FileWatcher.construct
  rw [if_pos h]

/-- Witness for C10 at a live (`inited = true`) module state. -/
theorem C10_witness :
    ((⟨true⟩ : FileWatcher.GlobalState).inited = true ∧
      FileWatcher.construct ⟨true⟩ true =
        (⟨true⟩, .error "FileWatcher can only be instantiated once")) ∧
    FileWatcher.construct (FileWatcher.endWatcher ⟨true⟩) true
        = (⟨true⟩, .ok ⟨true⟩) :=
  ⟨⟨rfl, (C10_singleton ⟨true⟩ true false).1 rfl⟩,
    (C10_singleton ⟨true⟩ true false).2.1⟩

end Metro

